import Mathlib

/-!
Verification of the SMLReader smart-meter pipeline (src/src/main.cpp).

The embedding models the byte-stream framing state machine
(`wait_for_start_sequence` / `read_message` / `read_checksum`), datagram
checksum validation, metric extraction and the publish step of
`process_message`, one consumed byte per step.  The global C++ byte array
`buffer` is modelled as a total function `Nat → Nat`; every read of a
`byte`-typed cell goes through `rd`, which truncates to 8 bits exactly as
the C++ `byte` type does.  Machine-integer wraparound (`uint8_t`,
`uint64_t`, unsigned 32-bit `millis` arithmetic) is made explicit with
`% 2 ^ 8`, `% 2 ^ 64` and `% 2 ^ 32`.

The value written to a OneWire sink slot is
`(uint32_t)((values[i].value * pow(10, values[i].scaler)) * 1000)` in the
source, computed with C `double` arithmetic; that floating-point scaling
step is kept abstract as a parameter `scale : Int → Int → Int` throughout,
so every theorem about which slots are written holds for any scaling
function.

Two pieces of state the source leaves undetermined are likewise kept as
parameters rather than resolved silently: the content of the
uninitialized `metric_value values[METRIC_LENGTH]` array (`init`), and
the eight bytes the pattern search actually compares (`needles`).  The
latter because `memmem_P(buffer, position, &METRICS[i].pattern.front(),
pattern_mem_size)` takes the address of the first element of a
`std::list<byte>`: that element is a single byte inside a heap-allocated
list node, so the 8-byte needle the program hands to `memmem_P` is the
pattern's first byte (0x77 for all three patterns) followed by 7 bytes
of whatever node padding and heap memory come after it.  Only the
needle's first byte, the compared length (`pattern_mem_size = 8`) and
the cursor advance (`pattern.size() = 8`) are determined by the source.
-/

set_option maxRecDepth 100000

/-- The C++ global byte array, as a total function from index to cell
content. -/
def Buf : Type := Nat → Nat

/-- Read of a `byte`-typed cell: the stored value truncated to 8 bits. -/
def rd (buf : Buf) (j : Nat) : Nat := buf j % 256

/-- Store one value at one index (`buffer[p] = b`). -/
def wr (buf : Buf) (p b : Nat) : Buf := fun j => if j = p then b else buf j

/-- Two's-complement reading of a byte as C `int8_t` (the `scaler` field). -/
def toInt8 (b : Nat) : Int := if b % 256 < 128 then (b % 256 : Int) else (b % 256 : Int) - 256

/-- Two's-complement reading of a 64-bit unsigned value as C `int64_t`
(the assignment of `uvalue` to `values[i].value`). -/
def toInt64 (u : Nat) : Int := if u < 2 ^ 63 then (u : Int) else (u : Int) - 2 ^ 64

/-- `START_SEQUENCE` from main.cpp. -/
def START_SEQUENCE : List Nat := [0x1B, 0x1B, 0x1B, 0x1B, 0x01, 0x01, 0x01, 0x01]

/-- `END_SEQUENCE` from main.cpp. -/
def END_SEQUENCE : List Nat := [0x1B, 0x1B, 0x1B, 0x1B, 0x1A]

/-- `BUFFER_SIZE` from main.cpp. -/
def BUFFER_SIZE : Nat := 3840

/-- `READ_TIMEOUT` from main.cpp (seconds). -/
def READ_TIMEOUT : Nat := 30

/-- The three metric patterns of `METRICS` (power_in, power_out,
power_current), in declaration order. -/
def METRICS : List (List Nat) :=
  [[0x77, 0x07, 0x01, 0x00, 0x01, 0x08, 0x00, 0xFF],
   [0x77, 0x07, 0x01, 0x00, 0x02, 0x08, 0x00, 0xFF],
   [0x77, 0x07, 0x01, 0x00, 0x10, 0x07, 0x00, 0xFF]]

/-- `struct metric_value` from main.cpp: `value` has C type `int64_t`,
`unit` has type `uint8_t`, `scaler` has type `int8_t`. -/
structure MetricValue where
  value : Int
  unit : Nat
  scaler : Int
deriving DecidableEq

/-- The four writable 32-bit user slots of the BAE910 sink
(`owBae910.memory.field.userm` / `usern` / `usero` / `userp`). -/
structure Bae910 where
  userm : Int
  usern : Int
  usero : Int
  userp : Int
deriving DecidableEq

/-- The three framing states of main.cpp, named after the state functions
whose addresses the global `state` pointer takes.  `process_message`
consumes no input, so it is executed inline by the step function the
moment `read_checksum` has consumed its third byte. -/
inductive SMLState where
  | wait_for_start_sequence
  | read_message
  | read_checksum
deriving DecidableEq

/-- Observable events of one step: the loggable error resets, plus a
record of each completed datagram handed to `process_message`. -/
inductive Ev where
  | bufferOverflow
  | checksumMismatch
  | timeoutExpired
  | processed (datagram : List Nat)
deriving DecidableEq

/-- The process-wide mutable state of main.cpp: the state pointer, the
byte buffer, `position`, `bytes_until_checksum`, `last_state_reset` and
the external sink registers. -/
structure Machine where
  st : SMLState
  buffer : Buf
  position : Nat
  bytes_until_checksum : Nat
  last_state_reset : Nat
  sink : Bae910

/-- Modelled from the spec: the external FastCRC library's `CRC16.x25`,
the standard CRC-16/X-25 (poly 0x1021 reflected = 0x8408, init 0xFFFF,
xorout 0xFFFF, reflected input/output); the library itself is not part of
this repository.  One bit of the reflected update. -/
def crcStepBit (c : Nat) : Nat := if c % 2 = 1 then (c / 2) ^^^ 0x8408 else c / 2

/-- Eight reflected CRC bit steps for one input byte. -/
def crcByte (c b : Nat) : Nat :=
  crcStepBit (crcStepBit (crcStepBit (crcStepBit
    (crcStepBit (crcStepBit (crcStepBit (crcStepBit (c ^^^ b))))))))

/-- CRC-16/X-25 of a byte list (see `crcStepBit`). -/
def crc16x25 (l : List Nat) : Nat := 0xFFFF ^^^ l.foldl crcByte 0xFFFF

/-- Exact match of `pat` against the buffer at offset `k`. -/
def matchAt (buf : Buf) (pat : List Nat) (k : Nat) : Bool :=
  (List.range pat.length).all fun i => pat.getD i 0 == rd buf (k + i)

/-- The idealized first-occurrence substring search the spec describes
(`memmem_P` applied to the full metric pattern).  The search the code
actually performs is `needleSearch` below, whose needle bytes are mostly
undetermined heap memory. -/
def findPattern (buf : Buf) (len : Nat) (pat : List Nat) : Option Nat :=
  (List.range (len + 1 - pat.length)).find? (matchAt buf pat)

/-- The value-field accumulation loop
`uvalue <<= 8; uvalue |= *cp++;` run `n` times on a `uint64_t`,
starting from 0 and reading bytes at `start`, `start+1`, … -/
def accReads (buf : Buf) (start n : Nat) : Nat :=
  (List.range n).foldl (fun uvalue i => uvalue * 256 % 2 ^ 64 ||| rd buf (start + i)) 0

/-- The value-field decode of `process_message` with the cursor on the
value header byte: `type = *cp & 0x70; len = *cp & 0x0f; cp++;` then the
loop `uint8_t nlen = len; while (--nlen) { uvalue <<= 8; uvalue |= *cp++; }`.
`--nlen` on a `uint8_t` wraps, so the loop body runs `(len + 255) % 256`
times.  The C++ conditional `(type == 0x50 ? (int64_t)uvalue : uvalue)`
has the common type `uint64_t`, and the result is then converted to the
`int64_t` field `value`, so both arms store the two's-complement
reinterpretation of `uvalue`. -/
def codeValueField (buf : Buf) (cp : Nat) : Int :=
  let type := rd buf cp / 16 % 8 * 16
  let len := rd buf cp % 16
  let uvalue := accReads buf (cp + 1) ((len + 255) % 256)
  if type == 0x50 then toInt64 uvalue else toInt64 uvalue

/-- The value-field decode as claim C6 words it: the low 4 header bits
give the total field length `len`, exactly `len - 1` payload bytes after
the header are accumulated big-endian into an unsigned 64-bit integer,
and the result is reinterpreted as signed exactly when the type bits
(mask 0x70) equal 0x50. -/
def claimValueField (buf : Buf) (cp : Nat) : Int :=
  let type := rd buf cp / 16 % 8 * 16
  let len := rd buf cp % 16
  let uvalue := accReads buf (cp + 1) (len - 1)
  if type == 0x50 then toInt64 uvalue else (uvalue : Int)

/-- The TLV walk of `process_message` starting with the cursor just after
a found metric pattern: skip status (`cp += *cp & 0x0f`), skip time,
read unit (`len = *cp & 0x0f; unit = *(cp+1); cp += len`), read scaler
likewise, then decode the value field (`codeValueField`).  The second
component records every buffer offset the walk dereferences. -/
def extractTrace (buf : Buf) (cp0 : Nat) : MetricValue × List Nat :=
  let cp1 := cp0 + rd buf cp0 % 16
  let cp2 := cp1 + rd buf cp1 % 16
  let len2 := rd buf cp2 % 16
  let unit := rd buf (cp2 + 1)
  let cp3 := cp2 + len2
  let len3 := rd buf cp3 % 16
  let scaler := toInt8 (rd buf (cp3 + 1))
  let cp4 := cp3 + len3
  let value := codeValueField buf cp4
  let n := (rd buf cp4 % 16 + 255) % 256
  (⟨value, unit, scaler⟩,
   [cp0, cp1, cp2, cp2 + 1, cp3, cp3 + 1, cp4] ++ (List.range n).map (fun i => cp4 + 1 + i))

/-- The decoded metric value produced by the TLV walk. -/
def extractAt (buf : Buf) (cp0 : Nat) : MetricValue := (extractTrace buf cp0).1

/-- The search `process_message` actually performs:
`memmem_P(buffer, position * sizeof(byte), &METRICS[i].pattern.front(),
pattern_mem_size)`.  `pattern_mem_size` is `METRICS[i].pattern.size() = 8`,
but the needle pointer addresses the single first-element byte of a
`std::list<byte>` inside its heap node, so the 8 compared bytes are
undetermined beyond the first; `needles i` gives the 8 bytes actually
residing at that address in a given execution.  First match offset, if
any. -/
def needleSearch (needles : Nat → List Nat) (buf : Buf) (len i : Nat) : Option Nat :=
  (List.range (len + 1 - (METRICS.getD i []).length)).find? fun k =>
    (List.range (METRICS.getD i []).length).all fun j =>
      (needles i).getD j 0 == rd buf (k + j)

/-- The one fact the source determines about each `memmem_P` needle: its
first byte is the pattern's first element (0x77 for all three patterns);
the remaining bytes are whatever heap memory follows the list node
(`junk`, arbitrary). -/
def needleFrom (junk : Nat → List Nat) : Nat → List Nat := fun i =>
  (METRICS.getD i []).getD 0 0 :: junk i

/-- One entry of the `values` array after the parse loop of
`process_message`: the decoded value when the needle search hits (the
cursor advances by `METRICS[i].pattern.size() = 8` past the match), the
uninitialized stack content `init i` otherwise (the source never
initializes `values` and never records whether a pattern was found). -/
def parsedMetric (needles : Nat → List Nat) (init : Nat → MetricValue)
    (buf : Buf) (len i : Nat) : MetricValue :=
  match needleSearch needles buf len i with
  | some k => extractAt buf (k + (METRICS.getD i []).length)
  | none => init i

/-- The number the publish loop writes for one metric, with the
floating-point computation
`(uint32_t)((values[i].value * (pow(10, values[i].scaler))) * 1000)`
kept abstract as `scale`. -/
def scaleSlot (scale : Int → Int → Int) (v : MetricValue) : Int := scale v.value v.scaler

/-- `reset()` / `set_state(wait_for_start_sequence)`: clear `position`,
refresh `last_state_reset` with the current `millis()` value, keep the
buffer contents and the sink untouched. -/
def resetM (now : Nat) (m : Machine) : Machine :=
  { m with st := .wait_for_start_sequence, position := 0, last_state_reset := now }

/-- `process_message()`: verify the CRC-16/X-25 of `buffer[0, position-2)`
against the little-endian checksum `(buffer[position-1] << 8) | buffer[position-2]`;
on mismatch reset and report; otherwise run the parse loop over the three
metric patterns, publish `values[0..2]` unconditionally to the slots
`userm`, `usern`, `usero` (the loop has no found flag), and reset. -/
def processMessage (needles : Nat → List Nat) (scale : Int → Int → Int) (init : Nat → MetricValue) (now : Nat)
    (m : Machine) : Machine × List Ev :=
  let calculated_checksum := crc16x25 ((List.range (m.position - 2)).map (rd m.buffer))
  let given_checksum := rd m.buffer (m.position - 1) * 256 + rd m.buffer (m.position - 2)
  if calculated_checksum ≠ given_checksum then
    (resetM now m, [Ev.checksumMismatch])
  else
    let v0 := parsedMetric needles init m.buffer m.position 0
    let v1 := parsedMetric needles init m.buffer m.position 1
    let v2 := parsedMetric needles init m.buffer m.position 2
    let sink : Bae910 :=
      { userm := scaleSlot scale v0
        usern := scaleSlot scale v1
        usero := scaleSlot scale v2
        userp := m.sink.userp }
    (resetM now { m with sink := sink },
     [Ev.processed ((List.range m.position).map (rd m.buffer))])

/-- One byte of `wait_for_start_sequence()`:
`buffer[position] = data_read();`
`position = (buffer[position] == START_SEQUENCE[position]) ? (position + 1) : 0;`
and on a full match `set_state(read_message)` (which clears nothing). -/
def waitStep (m : Machine) (b : Nat) : Machine :=
  let buffer := wr m.buffer m.position b
  let position := if rd buffer m.position == START_SEQUENCE.getD m.position 0
                  then m.position + 1 else 0
  if position == START_SEQUENCE.length then
    { m with buffer := buffer, position := position, st := .read_message }
  else
    { m with buffer := buffer, position := position }

/-- The end-of-message test of `read_message()` after an append: compare
`END_SEQUENCE` backwards against the `END_SEQUENCE_LENGTH` most recently
stored bytes. -/
def endSeqFoundAt (buf : Buf) (pos : Nat) : Bool :=
  (List.range END_SEQUENCE.length).all fun i =>
    END_SEQUENCE.getD (END_SEQUENCE.length - 1 - i) 0 == rd buf (pos - (i + 1))

/-- One available input byte fed to the current state function.  In
`read_message`, `if ((position + 3) == BUFFER_SIZE)` resets *without*
consuming the byte, so the byte is immediately re-examined by
`wait_for_start_sequence` (exactly as the real loop leaves it in the
serial buffer for the next tick).  In `read_checksum`, consuming the
third tail byte makes `bytes_until_checksum` zero and `process_message`
runs before any further input byte. -/
def stepByte (needles : Nat → List Nat) (scale : Int → Int → Int) (init : Nat → MetricValue) (now : Nat)
    (m : Machine) (b : Nat) : Machine × List Ev :=
  match m.st with
  | .wait_for_start_sequence => (waitStep m b, [])
  | .read_message =>
    if m.position + 3 == BUFFER_SIZE then
      (waitStep (resetM now m) b, [Ev.bufferOverflow])
    else
      let buffer := wr m.buffer m.position b
      let position := m.position + 1
      if endSeqFoundAt buffer position then
        ({ m with buffer := buffer, position := position,
                  st := .read_checksum, bytes_until_checksum := 3 }, [])
      else
        ({ m with buffer := buffer, position := position }, [])
  | .read_checksum =>
    let buffer := wr m.buffer m.position b
    let position := m.position + 1
    let remaining := m.bytes_until_checksum - 1
    if remaining == 0 then
      processMessage needles scale init now
        { m with buffer := buffer, position := position, bytes_until_checksum := 0 }
    else
      ({ m with buffer := buffer, position := position,
                bytes_until_checksum := remaining }, [])

/-- Drain a list of available input bytes through the state machine,
collecting the emitted events in order. -/
def runBytes (needles : Nat → List Nat) (scale : Int → Int → Int) (init : Nat → MetricValue) (now : Nat)
    (m : Machine) : List Nat → Machine × List Ev
  | [] => (m, [])
  | b :: bs =>
    let s := stepByte needles scale init now m b
    let r := runBytes needles scale init now s.1 bs
    (r.1, s.2 ++ r.2)

/-- Unsigned 32-bit `millis() - last_state_reset` (both operands below
`2 ^ 32`). -/
def elapsed32 (now last : Nat) : Nat := (2 ^ 32 + now - last) % 2 ^ 32

/-- `run_current_state()`: if more than `READ_TIMEOUT * 1000` milliseconds
passed since the last reset, reset unconditionally (in whatever state the
machine is), then run the current state function over the available
input. -/
def runTick (needles : Nat → List Nat) (scale : Int → Int → Int) (init : Nat → MetricValue) (now : Nat)
    (m : Machine) (input : List Nat) : Machine × List Ev :=
  if elapsed32 now m.last_state_reset > READ_TIMEOUT * 1000 then
    let r := runBytes needles scale init now (resetM now m) input
    (r.1, Ev.timeoutExpired :: r.2)
  else
    runBytes needles scale init now m input

/-- The start-marker match cursor run over a byte list in isolation:
`none` when the cursor reaches the full marker length at some point,
otherwise the final cursor value. -/
def scanStart (c : Nat) : List Nat → Option Nat
  | [] => some c
  | b :: bs =>
    let c1 := if b % 256 == START_SEQUENCE.getD c 0 then c + 1 else 0
    if c1 == START_SEQUENCE.length then none else scanStart c1 bs

/-- A byte list ends with the end marker (the list-level counterpart of
`endSeqFoundAt`). -/
def endsWithEndSeq (l : List Nat) : Bool :=
  (List.range END_SEQUENCE.length).all fun i =>
    END_SEQUENCE.getD (END_SEQUENCE.length - 1 - i) 0 == l.getD (l.length - (i + 1)) 0

/-- A default zero sink. -/
def sink0 : Bae910 := ⟨0, 0, 0, 0⟩

/-- A concrete scaling function (stands in for one possible behavior of
the floating-point publish computation). -/
def scale0 : Int → Int → Int := fun v _ => v

/-- A concrete uninitialized-stack content for the `values` array. -/
def init0 : Nat → MetricValue := fun _ => ⟨0, 0, 0⟩

/-- One admissible realization of the unspecified needle bytes: the heap
bytes following each pattern's first list node happen to coincide with
the rest of that pattern (the execution the spec implicitly assumes). -/
def needles0 : Nat → List Nat := fun i => METRICS.getD i []

/-- The pristine machine right after `setup()`: waiting for the start
sequence with an all-zero (freshly zero-initialized) buffer. -/
def m0 : Machine :=
  { st := .wait_for_start_sequence, buffer := fun _ => 0, position := 0,
    bytes_until_checksum := 0, last_state_reset := 0, sink := sink0 }

/-- A minimal well-formed datagram with empty payload: start marker, end
marker, fill byte 0, and its correct CRC-16/X-25 little-endian (0xE5C6). -/
def dC2 : List Nat := START_SEQUENCE ++ END_SEQUENCE ++ [0, 0xC6, 0xE5]

/-- The buffer holding `dC2` at offset 0 and zeros (stale cells) beyond.
Note `dC2` contains no 0x77 byte at all. -/
def bufC2 : Buf := fun j => dC2.getD j 0

/-- The machine state at the moment `process_message` runs on `dC2`. -/
def mC2 : Machine :=
  { st := .wait_for_start_sequence, buffer := bufC2, position := dC2.length,
    bytes_until_checksum := 0, last_state_reset := 0, sink := sink0 }

/-- A well-formed datagram whose payload is exactly the power_in metric
pattern, immediately followed by the end marker; its CRC is 0x321D. -/
def dC9 : List Nat := START_SEQUENCE ++ (METRICS.getD 0 []) ++ END_SEQUENCE ++ [0, 0x1D, 0x32]

/-- The buffer holding `dC9` at offset 0 and zeros (stale cells) beyond. -/
def bufC9 : Buf := fun j => dC9.getD j 0

/-- The machine state at the moment `process_message` runs on `dC9`. -/
def mC9 : Machine :=
  { st := .wait_for_start_sequence, buffer := bufC9, position := dC9.length,
    bytes_until_checksum := 0, last_state_reset := 0, sink := sink0 }

/-- The byte sequence of the spec's worked example, claim C5: the
power_in pattern followed by `01 00 01 00 01 1E 01 FF 59 00 03 94`, in a
buffer that is zero (stale) beyond those 20 bytes. -/
def bufC5 : Buf :=
  fun j => ((METRICS.getD 0 []) ++
    [0x01, 0x00, 0x01, 0x00, 0x01, 0x1E, 0x01, 0xFF, 0x59, 0x00, 0x03, 0x94]).getD j 0

/-- A buffer whose cell 255 holds 1 and whose other cells are 0: a value
field whose header has length nibble 0 sits at offset 0. -/
def bufC6 : Buf := fun j => if j = 255 then 1 else 0

/-- A value field header 0x54 (signed, total length 4) with payload
`00 03 94`. -/
def bufW6 : Buf := fun j => ([0x54, 0x00, 0x03, 0x94] : List Nat).getD j 0

/-- A machine with a corrupted datagram: `dC2` with its fill byte
changed, so the embedded checksum no longer matches. -/
def mBad : Machine :=
  { st := .wait_for_start_sequence,
    buffer := fun j => (START_SEQUENCE ++ END_SEQUENCE ++ [1, 0xC6, 0xE5]).getD j 0,
    position := 16, bytes_until_checksum := 0, last_state_reset := 0, sink := sink0 }

/-- A machine sitting in `wait_for_start_sequence` with a partial
start-marker match (cursor 3) and a stale `last_state_reset`. -/
def mWS3 : Machine :=
  { st := .wait_for_start_sequence, buffer := fun _ => 0, position := 3,
    bytes_until_checksum := 0, last_state_reset := 0, sink := sink0 }

/-- A machine in `read_message` whose buffer holds `BUFFER_SIZE - 3`
bytes. -/
def mOv : Machine :=
  { st := .read_message, buffer := fun _ => 0, position := 3837,
    bytes_until_checksum := 0, last_state_reset := 0, sink := sink0 }

/-! ## Basic buffer lemmas -/

lemma rd_wr_self (buf : Buf) (p b : Nat) : rd (wr buf p b) p = b % 256 := by
  simp [rd, wr]

lemma rd_wr_other (buf : Buf) (p b j : Nat) (h : j ≠ p) : rd (wr buf p b) j = rd buf j := by
  simp [rd, wr, h]

/-! ## Characterizations of `process_message` -/

lemma processMessage_invalid (needles : Nat → List Nat) (scale : Int → Int → Int) (init : Nat → MetricValue) (now : Nat)
    (m : Machine)
    (h : crc16x25 ((List.range (m.position - 2)).map (rd m.buffer)) ≠
         rd m.buffer (m.position - 1) * 256 + rd m.buffer (m.position - 2)) :
    processMessage needles scale init now m = (resetM now m, [Ev.checksumMismatch]) := by
  simp only [processMessage]
  rw [if_pos h]

lemma processMessage_valid (needles : Nat → List Nat) (scale : Int → Int → Int) (init : Nat → MetricValue) (now : Nat)
    (m : Machine)
    (h : crc16x25 ((List.range (m.position - 2)).map (rd m.buffer)) =
         rd m.buffer (m.position - 1) * 256 + rd m.buffer (m.position - 2)) :
    processMessage needles scale init now m =
      (resetM now { m with sink :=
          { userm := scaleSlot scale (parsedMetric needles init m.buffer m.position 0)
            usern := scaleSlot scale (parsedMetric needles init m.buffer m.position 1)
            usero := scaleSlot scale (parsedMetric needles init m.buffer m.position 2)
            userp := m.sink.userp } },
       [Ev.processed ((List.range m.position).map (rd m.buffer))]) := by
  simp only [processMessage]
  rw [if_neg (fun hne => hne h)]

lemma processMessage_st (needles : Nat → List Nat) (scale : Int → Int → Int) (init : Nat → MetricValue) (now : Nat)
    (m : Machine) :
    (processMessage needles scale init now m).1.st = SMLState.wait_for_start_sequence := by
  simp only [processMessage]
  split <;> rfl

lemma processMessage_no_timeout (needles : Nat → List Nat) (scale : Int → Int → Int) (init : Nat → MetricValue) (now : Nat)
    (m : Machine) : Ev.timeoutExpired ∉ (processMessage needles scale init now m).2 := by
  simp only [processMessage]
  split <;> simp

/-! ## Claim C3: checksum validation -/

/-- C3: for a completed datagram of length `L = position`, `process_message`
computes the CRC-16/X-25 of bytes `[0, L-2)` and compares it with the
little-endian expected value read from bytes `[L-2, L)` (low byte at
`L-2`, high byte at `L-1`).  On mismatch the datagram is discarded with a
full reset to `wait_for_start_sequence` and the sink is untouched; on a
match, the unmodified datagram bytes are handed on to extraction and
publishing. -/
theorem c3_checksum_validation (needles : Nat → List Nat) (scale : Int → Int → Int) (init : Nat → MetricValue)
    (now : Nat) (m : Machine) :
    (crc16x25 ((List.range (m.position - 2)).map (rd m.buffer)) ≠
        rd m.buffer (m.position - 1) * 256 + rd m.buffer (m.position - 2) →
      (processMessage needles scale init now m).1.st = SMLState.wait_for_start_sequence ∧
      (processMessage needles scale init now m).1.position = 0 ∧
      (processMessage needles scale init now m).1.sink = m.sink ∧
      (processMessage needles scale init now m).2 = [Ev.checksumMismatch]) ∧
    (crc16x25 ((List.range (m.position - 2)).map (rd m.buffer)) =
        rd m.buffer (m.position - 1) * 256 + rd m.buffer (m.position - 2) →
      (processMessage needles scale init now m).2 =
        [Ev.processed ((List.range m.position).map (rd m.buffer))] ∧
      (processMessage needles scale init now m).1.st = SMLState.wait_for_start_sequence) := by
  constructor
  · intro h
    rw [processMessage_invalid needles scale init now m h]
    simp [resetM]
  · intro h
    rw [processMessage_valid needles scale init now m h]
    simp [resetM]

/-- Witness for C3: a concrete datagram whose embedded checksum does not
match leaves the sink unchanged and reports the mismatch. -/
theorem c3_checksum_validation_witness :
    (processMessage needles0 scale0 init0 0 mBad).1.sink = mBad.sink ∧
    (processMessage needles0 scale0 init0 0 mBad).2 = [Ev.checksumMismatch] :=
  ⟨((c3_checksum_validation needles0 scale0 init0 0 mBad).1 (by decide)).2.2.1,
   ((c3_checksum_validation needles0 scale0 init0 0 mBad).1 (by decide)).2.2.2⟩

/-! ## A case split for one `wait_for_start_sequence` byte -/

lemma waitStep_cases (m : Machine) (b : Nat) :
    (waitStep m b).st = SMLState.read_message ∧ (waitStep m b).position = 8 ∨
    (waitStep m b).st = m.st ∧ (waitStep m b).position ≤ m.position + 1 := by
  simp only [waitStep]
  by_cases hm : (rd (wr m.buffer m.position b) m.position ==
      START_SEQUENCE.getD m.position 0) = true
  · rw [if_pos hm]
    by_cases h8 : ((m.position + 1 : Nat) == START_SEQUENCE.length) = true
    · rw [if_pos h8]
      exact Or.inl ⟨rfl, by simpa [START_SEQUENCE] using h8⟩
    · rw [if_neg h8]
      exact Or.inr ⟨rfl, Nat.le_refl _⟩
  · rw [if_neg hm]
    rw [if_neg (by decide : ¬ (((0 : Nat) == START_SEQUENCE.length) = true))]
    exact Or.inr ⟨rfl, Nat.zero_le _⟩

/-! ## Claim C4: buffer overflow boundary -/

/-- C4: while accumulating in `read_message`, consuming another byte
triggers the `BufferOverflow` reset exactly when the buffer already holds
`BUFFER_SIZE - 3 = 3837` bytes, and since that check precedes the append,
the buffer length can never exceed `BUFFER_SIZE - 3` while the machine is
in `read_message`. -/
theorem c4_overflow_boundary (needles : Nat → List Nat) (scale : Int → Int → Int) (init : Nat → MetricValue)
    (now : Nat) (m : Machine) (b : Nat) :
    (m.st = SMLState.read_message →
      ((stepByte needles scale init now m b).2 = [Ev.bufferOverflow] ↔
        m.position = BUFFER_SIZE - 3)) ∧
    BUFFER_SIZE - 3 = 3837 ∧
    ((m.st = SMLState.read_message → m.position ≤ BUFFER_SIZE - 3) →
      (stepByte needles scale init now m b).1.st = SMLState.read_message →
      (stepByte needles scale init now m b).1.position ≤ BUFFER_SIZE - 3) := by
  refine ⟨?_, by norm_num [BUFFER_SIZE], ?_⟩
  · intro hst
    simp only [stepByte, hst]
    by_cases hpos : ((m.position + 3 : Nat) == BUFFER_SIZE) = true
    · rw [if_pos hpos]
      simp only [beq_iff_eq, BUFFER_SIZE] at hpos
      simp [BUFFER_SIZE]
      omega
    · rw [if_neg hpos]
      simp only [beq_iff_eq, BUFFER_SIZE] at hpos
      constructor
      · intro hev
        exfalso
        revert hev
        split <;> simp
      · intro heq
        simp only [BUFFER_SIZE] at heq
        exact absurd (by omega) hpos
  · intro hinv hst'
    cases hstm : m.st with
    | wait_for_start_sequence =>
      simp only [stepByte, hstm] at hst' ⊢
      rcases waitStep_cases m b with ⟨-, hp8⟩ | ⟨hs2, -⟩
      · rw [hp8]
        norm_num [BUFFER_SIZE]
      · rw [hs2, hstm] at hst'
        cases hst'
    | read_message =>
      have hp := hinv hstm
      simp only [stepByte, hstm] at hst' ⊢
      by_cases hpos : ((m.position + 3 : Nat) == BUFFER_SIZE) = true
      · rw [if_pos hpos] at hst' ⊢
        rcases waitStep_cases (resetM now m) b with ⟨-, hp8⟩ | ⟨hs2, -⟩
        · rw [hp8]
          norm_num [BUFFER_SIZE]
        · rw [hs2] at hst'
          simp [resetM] at hst'
      · rw [if_neg hpos] at hst' ⊢
        simp only [beq_iff_eq, BUFFER_SIZE] at hpos
        by_cases hend : endSeqFoundAt (wr m.buffer m.position b) (m.position + 1) = true
        · rw [if_pos hend] at hst' ⊢
          simp at hst'
        · rw [if_neg hend] at hst' ⊢
          simp only [BUFFER_SIZE] at hp ⊢
          omega
    | read_checksum =>
      simp only [stepByte, hstm] at hst' ⊢
      by_cases hrem : ((m.bytes_until_checksum - 1 : Nat) == 0) = true
      · rw [if_pos hrem] at hst' ⊢
        rw [processMessage_st] at hst'
        cases hst'
      · rw [if_neg hrem] at hst' ⊢
        simp at hst'

/-- Witness for C4: a concrete machine in `read_message` with 3837
buffered bytes resets with `BufferOverflow` on the next byte. -/
theorem c4_overflow_boundary_witness :
    mOv.st = SMLState.read_message ∧
    (stepByte needles0 scale0 init0 0 mOv 0).2 = [Ev.bufferOverflow] :=
  ⟨rfl, ((c4_overflow_boundary needles0 scale0 init0 0 mOv 0).1 rfl).mpr (by decide)⟩

/-! ## Claim C10: the watchdog -/

lemma stepByte_no_timeout (needles : Nat → List Nat) (scale : Int → Int → Int) (init : Nat → MetricValue) (now : Nat)
    (m : Machine) (b : Nat) : Ev.timeoutExpired ∉ (stepByte needles scale init now m b).2 := by
  cases hstm : m.st with
  | wait_for_start_sequence => simp [stepByte, hstm]
  | read_message =>
    simp only [stepByte, hstm]
    split
    · simp
    · split <;> simp
  | read_checksum =>
    simp only [stepByte, hstm]
    split
    · exact processMessage_no_timeout needles scale init now _
    · simp

lemma runBytes_no_timeout (needles : Nat → List Nat) (scale : Int → Int → Int) (init : Nat → MetricValue) (now : Nat) :
    ∀ (bs : List Nat) (m : Machine), Ev.timeoutExpired ∉ (runBytes needles scale init now m bs).2 := by
  intro bs
  induction bs with
  | nil => intro m; simp [runBytes]
  | cons b bs ih =>
    intro m
    simp only [runBytes, List.mem_append]
    rintro (h | h)
    · exact stepByte_no_timeout needles scale init now m b h
    · exact ih _ h

/-- C10 counterexample: with the machine sitting in
`wait_for_start_sequence` (partial marker match, cursor 3) and 30001 ms
since the last reset, the tick fires the `TimeoutExpired` reset — the
claim's "never while the framer is in WaitStart" is false. -/
theorem c10_timeout_in_waitstart_counterexample :
    mWS3.st = SMLState.wait_for_start_sequence ∧
    (runTick needles0 scale0 init0 30001 mWS3 []).2 = [Ev.timeoutExpired] ∧
    (runTick needles0 scale0 init0 30001 mWS3 []).1.position = 0 := by
  refine ⟨rfl, ?_, ?_⟩ <;> decide

/-- C10 as amended: a tick fires the `TimeoutExpired` reset exactly when
the 32-bit `millis() - last_state_reset` measurement exceeds
`READ_TIMEOUT * 1000 = 30000` ms, in every framer state — including
`wait_for_start_sequence` — and the reset discards any partial datagram,
returning the machine to `wait_for_start_sequence` with an empty buffer
and a refreshed `last_state_reset`. -/
theorem c10_watchdog_amended (needles : Nat → List Nat) (scale : Int → Int → Int) (init : Nat → MetricValue)
    (now : Nat) (m : Machine) (input : List Nat) :
    (Ev.timeoutExpired ∈ (runTick needles scale init now m input).2 ↔
      elapsed32 now m.last_state_reset > READ_TIMEOUT * 1000) ∧
    (elapsed32 now m.last_state_reset > READ_TIMEOUT * 1000 →
      (runTick needles scale init now m []).2 = [Ev.timeoutExpired] ∧
      (runTick needles scale init now m []).1.st = SMLState.wait_for_start_sequence ∧
      (runTick needles scale init now m []).1.position = 0 ∧
      (runTick needles scale init now m []).1.last_state_reset = now) := by
  constructor
  · by_cases h : elapsed32 now m.last_state_reset > READ_TIMEOUT * 1000
    · simp only [runTick, if_pos h]
      simp [h, runBytes_no_timeout]
    · simp only [runTick, if_neg h]
      simp [h]
      intro hmem
      exact absurd hmem (runBytes_no_timeout needles scale init now input m)
  · intro h
    simp only [runTick, if_pos h]
    exact ⟨rfl, rfl, rfl, rfl⟩

/-- Witness for C10 as amended: the concrete `wait_for_start_sequence`
machine at 30001 ms fires the timeout and is fully reset. -/
theorem c10_watchdog_amended_witness :
    Ev.timeoutExpired ∈ (runTick needles0 scale0 init0 30001 mWS3 []).2 ∧
    (runTick needles0 scale0 init0 30001 mWS3 []).1.position = 0 :=
  ⟨(c10_watchdog_amended needles0 scale0 init0 30001 mWS3 []).1.mpr (by decide),
   ((c10_watchdog_amended needles0 scale0 init0 30001 mWS3 []).2 (by decide)).2.2.1⟩

/-! ## Claim C6: the value-field decode -/

/-- C6 counterexample: a value-field header with length nibble 0.  The
claim's reading ("exactly `len - 1` payload bytes") accumulates nothing,
but the code's `uint8_t` counter wraps and accumulates 255 bytes, so a 1
stored 255 cells after the header changes the decoded value. -/
theorem c6_value_field_counterexample :
    codeValueField bufC6 0 = 1 ∧ claimValueField bufC6 0 = 0 ∧
    ¬ codeValueField bufC6 0 = claimValueField bufC6 0 := by
  refine ⟨?_, ?_, ?_⟩ <;> decide

/-- C6 as amended: the header's low 4 bits give the total field length
`len` and bits masked 0x70 select signedness, but the loop accumulates
`len - 1` bytes only when `len ≥ 1` (when `len = 0` the 8-bit counter
wraps and 255 bytes are read), and the accumulated 64-bit value is stored
through a signed 64-bit reinterpretation in all cases; this coincides
with the claim's "signed exactly when type = 0x50" rule whenever
`len ≥ 1` and either the type is 0x50 or the accumulated value is below
`2 ^ 63`. -/
theorem c6_value_field_amended (buf : Buf) (cp : Nat)
    (h1 : 1 ≤ rd buf cp % 16)
    (h2 : rd buf cp / 16 % 8 * 16 = 0x50 ∨
          accReads buf (cp + 1) (rd buf cp % 16 - 1) < 2 ^ 63) :
    codeValueField buf cp = claimValueField buf cp := by
  have h16 : rd buf cp % 16 < 16 := Nat.mod_lt _ (by norm_num)
  have hlen : (rd buf cp % 16 + 255) % 256 = rd buf cp % 16 - 1 := by omega
  simp only [codeValueField, claimValueField, hlen]
  by_cases ht : (rd buf cp / 16 % 8 * 16 == 0x50) = true
  · rw [if_pos ht, if_pos ht]
  · rw [if_neg ht, if_neg ht]
    rcases h2 with h2 | h2
    · exact absurd (by simpa using h2) ht
    · simp only [toInt64, if_pos h2]

/-- Witness for C6 as amended: a signed value field `54 00 03 94`
(length nibble 4, three payload bytes) decodes identically under the
code's loop and the claim's description. -/
theorem c6_value_field_amended_witness :
    1 ≤ rd bufW6 0 % 16 ∧ codeValueField bufW6 0 = claimValueField bufW6 0 :=
  ⟨by decide, c6_value_field_amended bufW6 0 (by decide) (Or.inl (by decide))⟩

/-! ## Claim C5: the spec's worked example -/

/-- C5 counterexample: with the cursor placed right after the power_in
pattern on the spec's example bytes `01 00 01 00 01 1E 01 FF 59 00 03 94`,
the walk does not decode unit 0x1E, scaler −1 or value 916. -/
theorem c5_example_decode_counterexample :
    ¬ (extractAt bufC5 8).unit = 0x1E ∧
    ¬ (extractAt bufC5 8).scaler = -1 ∧
    ¬ (extractAt bufC5 8).value = 916 := by
  refine ⟨?_, ?_, ?_⟩ <;> decide

/-- C5 as amended: on those bytes the walk gets stuck on the 0x00
timestamp header (skip 0), reads the unit and scaler from the byte after
it (0x01 both, so unit = 0x01 and scaler = +1), and the value header 0x00
has length nibble 0, so the wrapped loop accumulates 255 bytes, which
over the zero-filled remainder of the buffer yields value 0; the spec's
triple (unit 0x1E, scaler −1, value 916) and the derived 91600 publish do
not occur. -/
theorem c5_example_decode_amended :
    findPattern bufC5 20 (METRICS.getD 0 []) = some 0 ∧
    extractAt bufC5 8 = ⟨0, 0x01, 1⟩ := by
  refine ⟨?_, ?_⟩ <;> decide

/-! ## Claim C1: absent metrics are still published -/

lemma needleSearch_none_of_no_first_byte (needles : Nat → List Nat) (buf : Buf)
    (len i : Nat) (hsz : 0 < (METRICS.getD i []).length)
    (h77 : (needles i).getD 0 0 = 0x77)
    (hbuf : ∀ k, k < len → rd buf k ≠ 0x77) :
    needleSearch needles buf len i = none := by
  unfold needleSearch
  apply List.find?_eq_none.mpr
  intro k hk
  simp only [List.mem_range] at hk
  intro hall
  rw [List.all_eq_true] at hall
  have h0 := hall 0 (List.mem_range.mpr hsz)
  simp only [h77, Nat.add_zero, beq_iff_eq] at h0
  exact hbuf k (by omega) h0.symm

/-- C1: on the concrete valid datagram `dC2`, which contains no 0x77
byte, the needle search misses for every metric and every heap
realization of the needle tail (only the needle's first byte, 0x77, is
determined by the source, and it occurs nowhere in the datagram) — yet
the publish loop still writes all three slots `userm`, `usern`, `usero`,
each with a value derived from the uninitialized `values[]` stack
content (`init`), for every scaling function.  The claim's "the external
sink slot for index i is left unchanged" is false for every admissible
execution. -/
theorem c1_missing_metric_still_published (junk : Nat → List Nat)
    (scale : Int → Int → Int) (init : Nat → MetricValue) (now : Nat) :
    (∀ i, i < 3 → needleSearch (needleFrom junk) bufC2 dC2.length i = none) ∧
    (processMessage (needleFrom junk) scale init now mC2).1.sink.userm =
      scale (init 0).value (init 0).scaler ∧
    (processMessage (needleFrom junk) scale init now mC2).1.sink.usern =
      scale (init 1).value (init 1).scaler ∧
    (processMessage (needleFrom junk) scale init now mC2).1.sink.usero =
      scale (init 2).value (init 2).scaler := by
  have hnone : ∀ i, i < 3 → needleSearch (needleFrom junk) bufC2 dC2.length i = none := by
    intro i hi
    apply needleSearch_none_of_no_first_byte
    · interval_cases i <;> decide
    · interval_cases i <;> rfl
    · decide
  have hck : crc16x25 ((List.range (mC2.position - 2)).map (rd mC2.buffer)) =
      rd mC2.buffer (mC2.position - 1) * 256 + rd mC2.buffer (mC2.position - 2) := by
    decide
  rw [processMessage_valid (needleFrom junk) scale init now mC2 hck]
  have hbuf : mC2.buffer = bufC2 := rfl
  have hpos : mC2.position = dC2.length := rfl
  refine ⟨hnone, ?_, ?_, ?_⟩ <;>
    simp only [resetM, parsedMetric, scaleSlot, hbuf, hpos, hnone 0 (by norm_num),
      hnone 1 (by norm_num), hnone 2 (by norm_num)]

/-! ## Claim C9: the TLV walk has no bounds checks -/

/-- C9 counterexample: `dC9` is a validated 24-byte datagram (its CRC
matches); in the execution where the unspecified needle bytes coincide
with the power_in pattern (`needles0`, one admissible heap state) the
search finds offset 8, yet the TLV walk starting at the resulting cursor
16 dereferences buffer offsets at and beyond the datagram's end
(offset 24) — there is no `FieldUnderrun` error and no abort. -/
theorem c9_reads_past_end_counterexample :
    dC9.length = 24 ∧
    crc16x25 ((List.range (dC9.length - 2)).map (rd bufC9)) =
      rd bufC9 (dC9.length - 1) * 256 + rd bufC9 (dC9.length - 2) ∧
    needleSearch needles0 bufC9 dC9.length 0 = some 8 ∧
    ((extractTrace bufC9 16).2.any fun o => decide (dC9.length ≤ o)) = true := by
  refine ⟨rfl, ?_, ?_, ?_⟩ <;> decide

/-- C9 as amended: the walk performs unchecked reads — the cursor may
advance past the datagram's end and the sub-fields are then decoded from
residual buffer bytes beyond the datagram; no decode error exists, the
walk always completes, and the metric is still published.  Where the
search places the cursor depends on unspecified heap bytes (the
`memmem_P` needle is `&std::list::front()` node memory); in every
execution whose needle matches the validated datagram `dC9` at offset 8
— in particular when the needle bytes happen to equal the pattern — the
walk reads past offset `dC9.length = 24` and slot `userm` is
nevertheless written from the decoded (out-of-datagram) value, for every
scaling function. -/
theorem c9_unchecked_walk_amended (needles : Nat → List Nat)
    (scale : Int → Int → Int) (init : Nat → MetricValue) (now : Nat)
    (hfind : needleSearch needles bufC9 dC9.length 0 = some 8) :
    ((extractTrace bufC9 16).2.any fun o => decide (dC9.length ≤ o)) = true ∧
    (processMessage needles scale init now mC9).2 = [Ev.processed dC9] ∧
    (processMessage needles scale init now mC9).1.sink.userm =
      scale (extractAt bufC9 16).value (extractAt bufC9 16).scaler := by
  have hread : ((extractTrace bufC9 16).2.any fun o => decide (dC9.length ≤ o)) = true := by
    decide
  have hck : crc16x25 ((List.range (mC9.position - 2)).map (rd mC9.buffer)) =
      rd mC9.buffer (mC9.position - 1) * 256 + rd mC9.buffer (mC9.position - 2) := by
    decide
  rw [processMessage_valid needles scale init now mC9 hck]
  have hbuf : mC9.buffer = bufC9 := rfl
  have hpos : mC9.position = dC9.length := rfl
  have hproc : (List.range mC9.position).map (rd mC9.buffer) = dC9 := by decide
  refine ⟨hread, by rw [hproc], ?_⟩
  simp only [resetM, parsedMetric, scaleSlot, hbuf, hpos, hfind]
  rfl

/-- Witness for C9 as amended: the needle realization `needles0` does
find the pattern at offset 8 in `dC9`, and the slot is written. -/
theorem c9_unchecked_walk_amended_witness :
    needleSearch needles0 bufC9 dC9.length 0 = some 8 ∧
    (processMessage needles0 scale0 init0 0 mC9).2 = [Ev.processed dC9] :=
  ⟨by decide, (c9_unchecked_walk_amended needles0 scale0 init0 0 (by decide)).2.1⟩

/-! ## Claim C2 counterexample and Claim C8 counterexample -/

/-- C2 counterexample: `dC2` alone is a well-formed, correctly
checksummed datagram that the pipeline assembles and processes; but with
a single noise byte 0x1B in front of it — arbitrary preceding bytes, as
the claim allows — the non-overlap-aware start matcher strands and the
very same datagram is never processed (no `processed` event at all),
refuting "embedded at any position, preceded ... by arbitrary other
bytes". -/
theorem c2_noise_prefix_counterexample :
    (runBytes needles0 scale0 init0 0 m0 dC2).2 = [Ev.processed dC2] ∧
    (runBytes needles0 scale0 init0 0 m0 ((0x1B : Nat) :: dC2)).2 = [] ∧
    (runBytes needles0 scale0 init0 0 m0 ((0x1B : Nat) :: dC2)).1.st =
      SMLState.wait_for_start_sequence := by
  refine ⟨?_, ?_, ?_⟩ <;> decide

/-- C8 counterexample: after the pristine machine consumes exactly the
start marker, the transition to the accumulate state happens with
`position = 8` — the frame buffer holds the eight marker bytes, not
length zero as the claim states. -/
theorem c8_buffer_not_cleared_counterexample :
    (runBytes needles0 scale0 init0 0 m0 START_SEQUENCE).1.st = SMLState.read_message ∧
    (runBytes needles0 scale0 init0 0 m0 START_SEQUENCE).1.position = 8 ∧
    ¬ (runBytes needles0 scale0 init0 0 m0 START_SEQUENCE).1.position = 0 ∧
    (List.range 8).map (rd (runBytes needles0 scale0 init0 0 m0 START_SEQUENCE).1.buffer) =
      START_SEQUENCE := by
  refine ⟨?_, ?_, ?_, ?_⟩ <;> decide

/-! ## Framing run lemmas -/

lemma waitStep_eq_of_ne8 (m : Machine) (b : Nat)
    (h : (if b % 256 == START_SEQUENCE.getD m.position 0 then m.position + 1 else 0) ≠ 8) :
    waitStep m b = { m with buffer := wr m.buffer m.position b,
                            position := if b % 256 == START_SEQUENCE.getD m.position 0
                                        then m.position + 1 else 0 } := by
  simp only [waitStep, rd_wr_self]
  rw [if_neg (by simpa [START_SEQUENCE] using h)]

lemma waitStep_eq_of_eq8 (m : Machine) (b : Nat)
    (h : (if b % 256 == START_SEQUENCE.getD m.position 0 then m.position + 1 else 0) = 8) :
    waitStep m b = { m with buffer := wr m.buffer m.position b, position := 8,
                            st := SMLState.read_message } := by
  simp only [waitStep, rd_wr_self]
  rw [if_pos (by simpa [START_SEQUENCE] using h), h]

lemma runBytes_append (needles : Nat → List Nat) (scale : Int → Int → Int) (init : Nat → MetricValue) (now : Nat)
    (xs : List Nat) : ∀ (ys : List Nat) (m : Machine),
    runBytes needles scale init now m (xs ++ ys) =
      ((runBytes needles scale init now (runBytes needles scale init now m xs).1 ys).1,
       (runBytes needles scale init now m xs).2 ++
         (runBytes needles scale init now (runBytes needles scale init now m xs).1 ys).2) := by
  induction xs with
  | nil => intro ys m; simp [runBytes]
  | cons b xs ih =>
    intro ys m
    simp only [List.cons_append, runBytes, List.append_eq, ih, List.append_assoc]

lemma runBytes_scanStart (needles : Nat → List Nat) (scale : Int → Int → Int) (init : Nat → MetricValue) (now : Nat) :
    ∀ (bs : List Nat) (c c2 : Nat) (m : Machine),
      m.st = SMLState.wait_for_start_sequence → m.position = c →
      scanStart c bs = some c2 →
      (runBytes needles scale init now m bs).1.st = SMLState.wait_for_start_sequence ∧
      (runBytes needles scale init now m bs).1.position = c2 ∧
      (runBytes needles scale init now m bs).2 = [] ∧
      (runBytes needles scale init now m bs).1.bytes_until_checksum = m.bytes_until_checksum ∧
      (runBytes needles scale init now m bs).1.sink = m.sink := by
  intro bs
  induction bs with
  | nil =>
    intro c c2 m hst hpos hscan
    simp only [scanStart, Option.some_inj] at hscan
    subst hscan
    exact ⟨hst, hpos, rfl, rfl, rfl⟩
  | cons b bs ih =>
    intro c c2 m hst hpos hscan
    subst hpos
    simp only [scanStart] at hscan
    by_cases h8 : ((if b % 256 == START_SEQUENCE.getD m.position 0
        then m.position + 1 else 0) == START_SEQUENCE.length) = true
    · rw [if_pos h8] at hscan
      cases hscan
    · rw [if_neg h8] at hscan
      have hne8 : (if b % 256 == START_SEQUENCE.getD m.position 0
          then m.position + 1 else 0) ≠ 8 := by
        intro hc
        rw [hc] at h8
        exact h8 (by decide)
      have hstep : stepByte needles scale init now m b = (waitStep m b, []) := by
        simp only [stepByte, hst]
      have hrec := ih (if b % 256 == START_SEQUENCE.getD m.position 0
          then m.position + 1 else 0) c2
        { m with buffer := wr m.buffer m.position b,
                 position := if b % 256 == START_SEQUENCE.getD m.position 0
                             then m.position + 1 else 0 }
        hst rfl hscan
      simp only [runBytes, hstep, waitStep_eq_of_ne8 m b hne8]
      exact ⟨hrec.1, hrec.2.1, by simpa using hrec.2.2.1, hrec.2.2.2.1, hrec.2.2.2.2⟩

lemma start_phase (needles : Nat → List Nat) (scale : Int → Int → Int) (init : Nat → MetricValue) (now : Nat)
    (m : Machine) (hst : m.st = SMLState.wait_for_start_sequence)
    (hpos : m.position = 0) :
    (runBytes needles scale init now m START_SEQUENCE).1.st = SMLState.read_message ∧
    (runBytes needles scale init now m START_SEQUENCE).1.position = 8 ∧
    (runBytes needles scale init now m START_SEQUENCE).2 = [] ∧
    (runBytes needles scale init now m START_SEQUENCE).1.bytes_until_checksum =
      m.bytes_until_checksum ∧
    (runBytes needles scale init now m START_SEQUENCE).1.sink = m.sink ∧
    ∀ j, j < 8 →
      rd (runBytes needles scale init now m START_SEQUENCE).1.buffer j = START_SEQUENCE.getD j 0 := by
  rcases m with ⟨st, buf, pos, bu, lr, sink⟩
  simp only at hst hpos
  subst hst
  subst hpos
  simp [START_SEQUENCE, runBytes, stepByte, waitStep, rd, wr]
  intro j hj
  interval_cases j <;> rfl

lemma getD_take_of_lt (l : List Nat) (p q : Nat) (hq : q < p) (hp : p ≤ l.length) :
    (l.take p).getD q 0 = l.getD q 0 := by
  have hql : q < l.length := lt_of_lt_of_le hq hp
  have h1 : q < (l.take p).length := by
    simp [List.length_take]
    omega
  rw [List.getD_eq_getElem _ _ h1, List.getElem_take, List.getD_eq_getElem _ _ hql]

lemma map_range_rd_eq_take (buf : Buf) (l : List Nat) (p : Nat) (hp : p ≤ l.length)
    (hpre : ∀ i, i < p → rd buf i = l.getD i 0) :
    (List.range p).map (rd buf) = l.take p := by
  apply List.ext_getElem
  · simp [List.length_take]
    omega
  · intro i h1 h2
    simp only [List.getElem_map, List.getElem_range, List.getElem_take]
    have hi : i < p := by simpa using h1
    rw [hpre i hi, List.getD_eq_getElem _ _ (lt_of_lt_of_le hi hp)]

lemma endSeqFoundAt_eq (buf : Buf) (l : List Nat) (p : Nat)
    (h5 : 5 ≤ p) (hp : p ≤ l.length)
    (hpre : ∀ i, i < p → rd buf i = l.getD i 0) :
    endSeqFoundAt buf p = endsWithEndSeq (l.take p) := by
  have hlen : (l.take p).length = p := by
    simp [List.length_take]
    omega
  unfold endSeqFoundAt endsWithEndSeq
  simp only [hlen]
  have hq : ∀ q, q < p → (l.take p).getD q 0 = l.getD q 0 := fun q hqp =>
    getD_take_of_lt l p q hqp hp
  simp only [END_SEQUENCE, List.length_cons, List.length_nil, List.range_succ,
    List.range_zero, List.all_append, List.all_cons, List.all_nil]
  rw [hpre (p - 1) (by omega), hpre (p - 2) (by omega), hpre (p - 3) (by omega),
      hpre (p - 4) (by omega), hpre (p - 5) (by omega),
      hq (p - 1) (by omega), hq (p - 2) (by omega), hq (p - 3) (by omega),
      hq (p - 4) (by omega), hq (p - 5) (by omega)]

lemma endsWithEndSeq_append (xs : List Nat) :
    endsWithEndSeq (xs ++ END_SEQUENCE) = true := by
  unfold endsWithEndSeq
  have hget : ∀ i, i < 5 →
      (xs ++ END_SEQUENCE).getD ((xs ++ END_SEQUENCE).length - (i + 1)) 0 =
        END_SEQUENCE.getD (4 - i) 0 := by
    intro i hi
    have hlen : (xs ++ END_SEQUENCE).length = xs.length + 5 := by
      simp [END_SEQUENCE]
    rw [hlen, show xs.length + 5 - (i + 1) = xs.length + (4 - i) from by omega,
        List.getD_append_right _ _ _ _ (by omega)]
    congr 1
    omega
  simp only [List.all_eq_true]
  intro i hi
  simp only [List.mem_range, END_SEQUENCE, List.length_cons, List.length_nil] at hi
  rw [show (END_SEQUENCE.length - 1 - i) = 4 - i from by simp [END_SEQUENCE],
      hget i hi]
  simp

lemma accum_phase (needles : Nat → List Nat) (scale : Int → Int → Int) (init : Nat → MetricValue) (now : Nat)
    (full : List Nat) (hfb : ∀ x ∈ full, x < 256) (hflen : full.length ≤ 3837)
    (hend : endsWithEndSeq full = true)
    (hnoend : ∀ k, k < full.length → endsWithEndSeq (full.take k) = false) :
    ∀ (r : List Nat) (j : Nat) (m : Machine),
      m.st = SMLState.read_message → m.position = j → 8 ≤ j →
      j + r.length = full.length → 1 ≤ r.length →
      (∀ i, i < r.length → r.getD i 0 = full.getD (j + i) 0) →
      (∀ i, i < j → rd m.buffer i = full.getD i 0) →
      (runBytes needles scale init now m r).1.st = SMLState.read_checksum ∧
      (runBytes needles scale init now m r).1.position = full.length ∧
      (runBytes needles scale init now m r).1.bytes_until_checksum = 3 ∧
      (runBytes needles scale init now m r).1.sink = m.sink ∧
      (runBytes needles scale init now m r).2 = [] ∧
      (∀ i, i < full.length →
        rd (runBytes needles scale init now m r).1.buffer i = full.getD i 0) := by
  intro r
  induction r with
  | nil =>
    intro j m _ _ _ _ h1 _ _
    simp at h1
  | cons b r ih =>
    intro j m hst hpos h8 hlen hone hbytes hpre
    subst hpos
    have hlen' : m.position + (r.length + 1) = full.length := by
      simpa using hlen
    have hjlt : m.position < full.length := by omega
    have hb : b = full.getD m.position 0 := by
      have h0 := hbytes 0 (by simp)
      simpa using h0
    have hb256 : b < 256 := by
      rw [hb, List.getD_eq_getElem _ _ hjlt]
      exact hfb _ (List.getElem_mem _)
    have hovf : ¬ ((m.position + 3 == BUFFER_SIZE) = true) := by
      simp only [beq_iff_eq, BUFFER_SIZE]
      omega
    simp only [runBytes, stepByte, hst]
    rw [if_neg hovf]
    have hpre' : ∀ i, i < m.position + 1 →
        rd (wr m.buffer m.position b) i = full.getD i 0 := by
      intro i hi
      rcases Nat.lt_or_ge i m.position with h | h
      · rw [rd_wr_other _ _ _ _ (by omega)]
        exact hpre i h
      · have heq : i = m.position := by omega
        subst heq
        rw [rd_wr_self, Nat.mod_eq_of_lt hb256, hb]
    have hendstep : endSeqFoundAt (wr m.buffer m.position b) (m.position + 1) =
        endsWithEndSeq (full.take (m.position + 1)) :=
      endSeqFoundAt_eq _ full (m.position + 1) (by omega) (by omega) hpre'
    rcases Nat.lt_or_ge (m.position + 1) full.length with hcase | hcase
    · rw [hendstep, hnoend _ hcase]
      rw [if_neg (by simp)]
      have hrec := ih (m.position + 1)
        { m with st := SMLState.read_message, buffer := wr m.buffer m.position b,
                 position := m.position + 1 }
        rfl rfl (by omega) (by omega) (by omega)
        (fun i hi => by
          have h2 := hbytes (i + 1) (by simpa using Nat.succ_lt_succ hi)
          rw [show m.position + 1 + i = m.position + (i + 1) from by omega]
          simpa using h2)
        hpre'
      exact ⟨hrec.1, hrec.2.1, hrec.2.2.1, hrec.2.2.2.1, by simpa using hrec.2.2.2.2.1,
        hrec.2.2.2.2.2⟩
    · have hposend : m.position + 1 = full.length := by omega
      have hrnil : r = [] := List.length_eq_zero.mp (by omega)
      subst hrnil
      rw [hendstep, hposend, List.take_length, hend]
      rw [if_pos rfl]
      refine ⟨rfl, rfl, rfl, rfl, by simp [runBytes], ?_⟩
      intro i hi
      simp only [runBytes]
      exact hpre' i (by omega)

lemma readChecksum_step_cont (needles : Nat → List Nat) (scale : Int → Int → Int) (init : Nat → MetricValue)
    (now : Nat) (m : Machine) (b : Nat)
    (hst : m.st = SMLState.read_checksum) (hbu : 2 ≤ m.bytes_until_checksum) :
    stepByte needles scale init now m b =
      ({ m with st := SMLState.read_checksum, buffer := wr m.buffer m.position b,
                position := m.position + 1,
                bytes_until_checksum := m.bytes_until_checksum - 1 }, []) := by
  simp only [stepByte, hst]
  rw [if_neg (by simp only [beq_iff_eq]; omega)]

lemma readChecksum_step_done (needles : Nat → List Nat) (scale : Int → Int → Int) (init : Nat → MetricValue)
    (now : Nat) (m : Machine) (b : Nat)
    (hst : m.st = SMLState.read_checksum) (hbu : m.bytes_until_checksum = 1) :
    stepByte needles scale init now m b =
      processMessage needles scale init now
        { m with st := SMLState.read_checksum, buffer := wr m.buffer m.position b,
                 position := m.position + 1, bytes_until_checksum := 0 } := by
  simp only [stepByte, hst, hbu]
  rw [if_pos (by simp)]

lemma tail_phase (needles : Nat → List Nat) (scale : Int → Int → Int) (init : Nat → MetricValue) (now : Nat)
    (full : List Nat) (fill lo hi : Nat)
    (hfill : fill < 256) (hlo : lo < 256) (hhi : hi < 256)
    (hcrc : crc16x25 (full ++ [fill]) = hi * 256 + lo)
    (m : Machine) (hst : m.st = SMLState.read_checksum)
    (hpos : m.position = full.length) (hbu : m.bytes_until_checksum = 3)
    (hpre : ∀ i, i < full.length → rd m.buffer i = full.getD i 0) :
    (runBytes needles scale init now m [fill, lo, hi]).1.st = SMLState.wait_for_start_sequence ∧
    (runBytes needles scale init now m [fill, lo, hi]).1.position = 0 ∧
    (runBytes needles scale init now m [fill, lo, hi]).2 =
      [Ev.processed (full ++ [fill, lo, hi])] := by
  rcases m with ⟨st, buf, pos, bu, lr, sink⟩
  simp only at hst hpos hbu hpre
  subst hst
  subst hpos
  subst hbu
  have e1 := readChecksum_step_cont needles scale init now
    ⟨SMLState.read_checksum, buf, full.length, 3, lr, sink⟩ fill rfl (by simp)
  have e2 := readChecksum_step_cont needles scale init now
    ⟨SMLState.read_checksum, wr buf full.length fill, full.length + 1, 3 - 1, lr, sink⟩
    lo rfl (by simp)
  have e3 := readChecksum_step_done needles scale init now
    ⟨SMLState.read_checksum, wr (wr buf full.length fill) (full.length + 1) lo,
     full.length + 1 + 1, 3 - 1 - 1, lr, sink⟩ hi rfl (by simp)
  simp only [runBytes, e1, e2, e3]
  set buf3 : Buf :=
    wr (wr (wr buf full.length fill) (full.length + 1) lo) (full.length + 1 + 1) hi
    with hbuf3
  have hpre3 : ∀ i, i < full.length + 3 →
      rd buf3 i = (full ++ [fill, lo, hi]).getD i 0 := by
    intro i hi3
    rcases Nat.lt_or_ge i full.length with h | h
    · rw [hbuf3, rd_wr_other _ _ _ _ (by omega), rd_wr_other _ _ _ _ (by omega),
          rd_wr_other _ _ _ _ (by omega), List.getD_append _ _ _ _ h]
      exact hpre i h
    · have hcase : i = full.length ∨ i = full.length + 1 ∨ i = full.length + 2 := by
        omega
      rcases hcase with hcase | hcase | hcase <;> subst hcase <;>
        rw [hbuf3, List.getD_append_right _ _ _ _ (by omega)]
      · rw [rd_wr_other _ _ _ _ (by omega), rd_wr_other _ _ _ _ (by omega), rd_wr_self,
            Nat.mod_eq_of_lt hfill]
        simp
      · rw [rd_wr_other _ _ _ _ (by omega), rd_wr_self, Nat.mod_eq_of_lt hlo]
        simp
      · rw [show full.length + 1 + 1 = full.length + 2 from by omega, rd_wr_self,
            Nat.mod_eq_of_lt hhi]
        simp
  have hdlen : (full ++ [fill, lo, hi]).length = full.length + 3 := by
    simp
  have hmap : ∀ p, p ≤ full.length + 3 →
      (List.range p).map (rd buf3) = (full ++ [fill, lo, hi]).take p := by
    intro p hp
    exact map_range_rd_eq_take buf3 _ p (by rw [hdlen]; omega)
      (fun i hi2 => hpre3 i (by omega))
  have htake1 : (full ++ [fill, lo, hi]).take (full.length + 1) = full ++ [fill] := by
    rw [List.take_append_eq_append_take, List.take_of_length_le (by omega),
        show full.length + 1 - full.length = 1 from by omega]
    rfl
  have hrd2 : rd buf3 (full.length + 2) = hi := by
    rw [hbuf3, show full.length + 1 + 1 = full.length + 2 from by omega, rd_wr_self,
        Nat.mod_eq_of_lt hhi]
  have hrd1 : rd buf3 (full.length + 1) = lo := by
    rw [hbuf3, rd_wr_other _ _ _ _ (by omega), rd_wr_self, Nat.mod_eq_of_lt hlo]
  have hproof : crc16x25 ((List.range (full.length + 1 + 1 + 1 - 2)).map (rd buf3)) =
      rd buf3 (full.length + 1 + 1 + 1 - 1) * 256 +
        rd buf3 (full.length + 1 + 1 + 1 - 2) := by
    rw [show full.length + 1 + 1 + 1 - 2 = full.length + 1 from by omega,
        show full.length + 1 + 1 + 1 - 1 = full.length + 2 from by omega,
        hmap (full.length + 1) (by omega), htake1, hrd2, hrd1, hcrc]
  rw [processMessage_valid needles scale init now _ hproof]
  refine ⟨by simp [resetM], by simp [resetM], ?_⟩
  simp only [resetM, List.append_nil, List.nil_append]
  rw [show full.length + 1 + 1 + 1 = full.length + 3 from by omega,
      hmap (full.length + 3) (by omega), ← hdlen, List.take_length]

/-! ## Claim C8: what the start-marker match leaves in the buffer -/

/-- C8 as amended: when the match cursor reaches the full marker length,
the machine transitions to the accumulate state with `position = 8` and
the frame buffer holding exactly the eight start-marker bytes — the
buffer is cleared (`position := 0`) only by `reset` back to
`wait_for_start_sequence`, not at this transition — so payload
accumulation begins at offset 8, after the stored marker. -/
theorem c8_start_match_amended (needles : Nat → List Nat) (scale : Int → Int → Int) (init : Nat → MetricValue)
    (now : Nat) (m : Machine)
    (hst : m.st = SMLState.wait_for_start_sequence) (hpos : m.position = 0) :
    (runBytes needles scale init now m START_SEQUENCE).1.st = SMLState.read_message ∧
    (runBytes needles scale init now m START_SEQUENCE).1.position = 8 ∧
    (List.range 8).map (rd (runBytes needles scale init now m START_SEQUENCE).1.buffer) =
      START_SEQUENCE := by
  obtain ⟨h1, h2, h3, h4, h5, h6⟩ := start_phase needles scale init now m hst hpos
  refine ⟨h1, h2, ?_⟩
  have hmap := map_range_rd_eq_take (runBytes needles scale init now m START_SEQUENCE).1.buffer
    START_SEQUENCE 8 (by decide) h6
  have ht : START_SEQUENCE.take 8 = START_SEQUENCE := rfl
  rw [hmap, ht]

/-- Witness for C8 as amended: the pristine machine after consuming the
marker. -/
theorem c8_start_match_amended_witness :
    (runBytes needles0 scale0 init0 0 m0 START_SEQUENCE).1.st = SMLState.read_message ∧
    (runBytes needles0 scale0 init0 0 m0 START_SEQUENCE).1.position = 8 :=
  ⟨(c8_start_match_amended needles0 scale0 init0 0 m0 rfl rfl).1,
   (c8_start_match_amended needles0 scale0 init0 0 m0 rfl rfl).2.1⟩

/-! ## Claim C2: end-to-end framing of one well-formed datagram -/

/-- C2 as amended: for every input stream `noise ++ datagram`, where the
datagram is well formed (start marker, payload that never makes the
accumulated prefix end with the end marker early, end marker, fill byte
and a matching little-endian CRC-16/X-25) and fits the buffer
(`payload ≤ 3824` bytes), and where the start matcher's cursor comes back
to zero over the noise without ever completing a match (`scanStart`) —
in particular for empty noise — the pipeline assembles exactly the
datagram's bytes bit-for-bit, hands them to `process_message`, and ends
back in `wait_for_start_sequence` with `position = 0`.  The original
claim's arbitrary noise is cut down by the non-overlap-aware matcher:
`c2_noise_prefix_counterexample` shows a single 0x1B of preceding noise
defeats it. -/
theorem c2_framing_amended (needles : Nat → List Nat) (scale : Int → Int → Int) (init : Nat → MetricValue)
    (now : Nat) (m : Machine) (noise payload : List Nat) (fill lo hi : Nat)
    (hst : m.st = SMLState.wait_for_start_sequence) (hpos : m.position = 0)
    (hnoise : scanStart 0 noise = some 0)
    (hplen : payload.length ≤ 3824)
    (hpbytes : ∀ x ∈ payload, x < 256)
    (hfill : fill < 256) (hlo : lo < 256) (hhi : hi < 256)
    (hnoend : ∀ k, k < (START_SEQUENCE ++ payload ++ END_SEQUENCE).length →
        endsWithEndSeq ((START_SEQUENCE ++ payload ++ END_SEQUENCE).take k) = false)
    (hcrc : crc16x25 (START_SEQUENCE ++ payload ++ END_SEQUENCE ++ [fill]) =
        hi * 256 + lo) :
    (runBytes needles scale init now m
      (noise ++ (START_SEQUENCE ++ payload ++ END_SEQUENCE ++ [fill, lo, hi]))).1.st =
        SMLState.wait_for_start_sequence ∧
    (runBytes needles scale init now m
      (noise ++ (START_SEQUENCE ++ payload ++ END_SEQUENCE ++ [fill, lo, hi]))).1.position
        = 0 ∧
    (runBytes needles scale init now m
      (noise ++ (START_SEQUENCE ++ payload ++ END_SEQUENCE ++ [fill, lo, hi]))).2 =
      [Ev.processed (START_SEQUENCE ++ payload ++ END_SEQUENCE ++ [fill, lo, hi])] := by
  have hassoc : START_SEQUENCE ++ payload ++ END_SEQUENCE =
      START_SEQUENCE ++ (payload ++ END_SEQUENCE) := List.append_assoc _ _ _
  have hfl : (START_SEQUENCE ++ (payload ++ END_SEQUENCE)).length =
      payload.length + 13 := by
    simp only [List.length_append, START_SEQUENCE, END_SEQUENCE, List.length_cons,
      List.length_nil]
    omega
  have hstream : noise ++ (START_SEQUENCE ++ payload ++ END_SEQUENCE ++ [fill, lo, hi]) =
      noise ++ (START_SEQUENCE ++ ((payload ++ END_SEQUENCE) ++ [fill, lo, hi])) := by
    simp [List.append_assoc]
  rw [hstream, runBytes_append needles scale init now noise,
      runBytes_append needles scale init now START_SEQUENCE,
      runBytes_append needles scale init now (payload ++ END_SEQUENCE)]
  obtain ⟨hn1, hn2, hn3, hn4, hn5⟩ :=
    runBytes_scanStart needles scale init now noise 0 0 m hst hpos hnoise
  obtain ⟨ha1, ha2, ha3, ha4, ha5, ha6⟩ :=
    start_phase needles scale init now (runBytes needles scale init now m noise).1 hn1 hn2
  have hfb : ∀ x ∈ START_SEQUENCE ++ (payload ++ END_SEQUENCE), x < 256 := by
    intro x hx
    simp only [List.mem_append] at hx
    rcases hx with hx | hx | hx
    · fin_cases hx <;> norm_num
    · exact hpbytes x hx
    · fin_cases hx <;> norm_num
  have hend : endsWithEndSeq (START_SEQUENCE ++ (payload ++ END_SEQUENCE)) = true := by
    rw [← hassoc]
    exact endsWithEndSeq_append (START_SEQUENCE ++ payload)
  have hnoend' : ∀ k, k < (START_SEQUENCE ++ (payload ++ END_SEQUENCE)).length →
      endsWithEndSeq ((START_SEQUENCE ++ (payload ++ END_SEQUENCE)).take k) = false := by
    rw [← hassoc]
    exact hnoend
  have hbytes : ∀ i, i < (payload ++ END_SEQUENCE).length →
      (payload ++ END_SEQUENCE).getD i 0 =
        (START_SEQUENCE ++ (payload ++ END_SEQUENCE)).getD (8 + i) 0 := by
    intro i hi
    rw [List.getD_append_right _ _ _ _
      (le_trans (by norm_num [START_SEQUENCE]) (Nat.le_add_right 8 i))]
    norm_num [START_SEQUENCE]
  have hpre8 : ∀ i, i < 8 →
      rd (runBytes needles scale init now (runBytes needles scale init now m noise).1
        START_SEQUENCE).1.buffer i =
        (START_SEQUENCE ++ (payload ++ END_SEQUENCE)).getD i 0 := by
    intro i hi
    rw [List.getD_append _ _ _ _ (by norm_num [START_SEQUENCE]; omega)]
    exact ha6 i hi
  obtain ⟨hc1, hc2, hc3, hc4, hc5, hc6⟩ :=
    accum_phase needles scale init now (START_SEQUENCE ++ (payload ++ END_SEQUENCE)) hfb
      (by omega) hend hnoend' (payload ++ END_SEQUENCE) 8
      (runBytes needles scale init now (runBytes needles scale init now m noise).1 START_SEQUENCE).1
      ha1 ha2 (by omega)
      (by
        have h1 : (payload ++ END_SEQUENCE).length = payload.length + 5 := by
          simp [END_SEQUENCE]
        omega)
      (by
        have h1 : (payload ++ END_SEQUENCE).length = payload.length + 5 := by
          simp [END_SEQUENCE]
        omega)
      hbytes hpre8
  have hcrc' : crc16x25 ((START_SEQUENCE ++ (payload ++ END_SEQUENCE)) ++ [fill]) =
      hi * 256 + lo := by
    simpa [List.append_assoc] using hcrc
  obtain ⟨ht1, ht2, ht3⟩ :=
    tail_phase needles scale init now (START_SEQUENCE ++ (payload ++ END_SEQUENCE)) fill lo hi
      hfill hlo hhi hcrc'
      (runBytes needles scale init now
        (runBytes needles scale init now (runBytes needles scale init now m noise).1 START_SEQUENCE).1
        (payload ++ END_SEQUENCE)).1
      hc1 hc2 hc3 hc6
  refine ⟨ht1, ht2, ?_⟩
  rw [hn3, ha3, hc5, ht3]
  simp [List.append_assoc]

/-- Witness for C2 as amended: the minimal datagram `dC2` (empty payload,
fill 0, CRC 0xE5C6) preceded by no noise is assembled, processed and the
machine returns to `wait_for_start_sequence`. -/
theorem c2_framing_amended_witness :
    (runBytes needles0 scale0 init0 0 m0
      ([] ++ (START_SEQUENCE ++ [] ++ END_SEQUENCE ++ [0, 0xC6, 0xE5]))).2 =
      [Ev.processed (START_SEQUENCE ++ [] ++ END_SEQUENCE ++ [0, 0xC6, 0xE5])] ∧
    (runBytes needles0 scale0 init0 0 m0
      ([] ++ (START_SEQUENCE ++ [] ++ END_SEQUENCE ++ [0, 0xC6, 0xE5]))).1.st =
      SMLState.wait_for_start_sequence :=
  ⟨(c2_framing_amended needles0 scale0 init0 0 m0 [] [] 0 0xC6 0xE5 rfl rfl rfl (by decide)
      (by simp) (by decide) (by decide) (by decide) (by decide) (by decide)).2.2,
   (c2_framing_amended needles0 scale0 init0 0 m0 [] [] 0 0xC6 0xE5 rfl rfl rfl (by decide)
      (by simp) (by decide) (by decide) (by decide) (by decide) (by decide)).1⟩
